import Mathlib

/-!
Verification of the segment pipeline coordinator in
`process_video_segments.py` (ProPainter repository).

File paths and file names are modelled as lists of Unicode code points
(`List Nat`), which is exactly the ordering domain Python uses when it
compares strings.  `split_video` sorts the globbed segment file names with
the built-in `sorted`, i.e. by lexicographic comparison of code points;
segment names are produced by the `segment_%03d.mp4` pattern of ffmpeg.
-/

namespace PVS

/-- Lexicographic strict comparison of code-point lists, the order Python
uses for `sorted` on strings (and on `Path` objects sharing a parent
directory, which compare by their final component).  A strict prefix is
smaller than the longer list. -/
def lexLtB : List Nat → List Nat → Bool
  | [], [] => false
  | [], _ :: _ => true
  | _ :: _, [] => false
  | a :: as, b :: bs =>
    if a < b then true else if b < a then false else lexLtB as bs

/-- Reflexive closure of `lexLtB`: the total order used to model the result
of Python `sorted`. -/
def nameLe (a b : List Nat) : Prop := lexLtB a b = true ∨ a = b

instance : DecidableRel nameLe := fun a b =>
  inferInstanceAs (Decidable (_ ∨ _))

theorem lexLtB_irrefl : ∀ a : List Nat, lexLtB a a = false
  | [] => rfl
  | x :: xs => by simp [lexLtB, lexLtB_irrefl xs]

theorem lexLtB_trans : ∀ {a b c : List Nat},
    lexLtB a b = true → lexLtB b c = true → lexLtB a c = true
  | [], _ :: _, _ :: _, _, _ => rfl
  | x :: xs, y :: ys, z :: zs, hab, hbc => by
    simp only [lexLtB] at hab hbc ⊢
    rcases Nat.lt_trichotomy x y with hxy | hxy | hxy
    · rcases Nat.lt_trichotomy y z with hyz | hyz | hyz
      · simp [Nat.lt_trans hxy hyz]
      · subst hyz; simp [hxy]
      · rcases Nat.lt_trichotomy z y with h | h | h
        · simp [h, Nat.lt_asymm h] at hbc
        · omega
        · omega
    · subst hxy
      simp [Nat.lt_irrefl] at hab
      rcases Nat.lt_trichotomy x z with hyz | hyz | hyz
      · simp [hyz]
      · subst hyz
        simp only [Nat.lt_irrefl, if_false]
        simp only [Nat.lt_irrefl, if_false] at hbc
        exact lexLtB_trans hab hbc
      · simp [Nat.lt_asymm hyz, hyz] at hbc
    · simp [Nat.lt_asymm hxy, hxy] at hab

theorem lexLtB_asymm : ∀ {a b : List Nat},
    lexLtB a b = true → lexLtB b a = false
  | [], _ :: _, _ => rfl
  | x :: xs, y :: ys, hab => by
    simp only [lexLtB] at hab ⊢
    rcases Nat.lt_trichotomy x y with hxy | hxy | hxy
    · simp [hxy, Nat.lt_asymm hxy]
    · subst hxy
      simp only [Nat.lt_irrefl, if_false] at hab ⊢
      exact lexLtB_asymm hab
    · simp [hxy, Nat.lt_asymm hxy] at hab

theorem lexLtB_connex : ∀ {a b : List Nat},
    a ≠ b → lexLtB a b = false → lexLtB b a = true
  | [], [], hne, _ => absurd rfl hne
  | [], _ :: _, _, h => by simp [lexLtB] at h
  | _ :: _, [], _, _ => rfl
  | x :: xs, y :: ys, hne, hab => by
    simp only [lexLtB] at hab ⊢
    rcases Nat.lt_trichotomy x y with hxy | hxy | hxy
    · simp [hxy] at hab
    · subst hxy
      simp only [Nat.lt_irrefl, if_false] at hab ⊢
      refine lexLtB_connex (fun h => hne ?_) hab
      rw [h]
    · simp [hxy, Nat.lt_asymm hxy]

instance : IsTotal (List Nat) nameLe :=
  ⟨fun a b => by
    by_cases hab : a = b
    · exact Or.inl (Or.inr hab)
    · cases hlt : lexLtB a b with
      | true => exact Or.inl (Or.inl hlt)
      | false => exact Or.inr (Or.inl (lexLtB_connex hab hlt))⟩

instance : IsTrans (List Nat) nameLe :=
  ⟨fun a b c hab hbc => by
    rcases hab with hab | hab
    · rcases hbc with hbc | hbc
      · exact Or.inl (lexLtB_trans hab hbc)
      · subst hbc; exact Or.inl hab
    · subst hab; exact hbc⟩

instance : IsAntisymm (List Nat) nameLe :=
  ⟨fun a b hab hba => by
    rcases hab with hab | hab
    · rcases hba with hba | hba
      · have := lexLtB_asymm hab
        rw [this] at hba; cases hba
      · exact hba.symm
    · exact hab⟩

theorem lexLtB_append_left : ∀ (p a b : List Nat),
    lexLtB (p ++ a) (p ++ b) = lexLtB a b
  | [], _, _ => rfl
  | x :: p, a, b => by
    simp [lexLtB, lexLtB_append_left p a b]

theorem lexLtB_append_of_length_eq : ∀ {a b : List Nat} (s t : List Nat),
    a.length = b.length → lexLtB a b = true → lexLtB (a ++ s) (b ++ t) = true
  | [], [], _, _, _, hab => by simp [lexLtB] at hab
  | x :: xs, y :: ys, s, t, hlen, hab => by
    simp only [lexLtB, List.cons_append] at hab ⊢
    rcases Nat.lt_trichotomy x y with hxy | hxy | hxy
    · simp [hxy]
    · subst hxy
      simp only [Nat.lt_irrefl, if_false] at hab ⊢
      exact lexLtB_append_of_length_eq s t (by simpa using hlen) hab
    · simp [hxy, Nat.lt_asymm hxy] at hab

theorem lexLtB_map_add48 : ∀ (a b : List Nat),
    lexLtB (a.map (fun d => d + 48)) (b.map (fun d => d + 48)) = lexLtB a b
  | [], [] => rfl
  | [], _ :: _ => rfl
  | _ :: _, [] => rfl
  | x :: xs, y :: ys => by
    simp only [List.map, lexLtB, Nat.add_lt_add_iff_right]
    rcases Nat.lt_trichotomy x y with hxy | hxy | hxy
    · simp [hxy]
    · subst hxy; simp [Nat.lt_irrefl, lexLtB_map_add48 xs ys]
    · simp [hxy, Nat.lt_asymm hxy]

/-- Big-endian decimal digits of `n` computed with explicit structural fuel
(empty for `n = 0`); used to model the width expansion of the printf
pattern `%03d` past three digits. -/
def decimalDigitsAux : Nat → Nat → List Nat
  | 0, _ => []
  | _ + 1, 0 => []
  | fuel + 1, n => decimalDigitsAux fuel (n / 10) ++ [n % 10]

/-- Big-endian decimal digits of `n`. -/
def decimalDigits (n : Nat) : List Nat := decimalDigitsAux n n

/-- Digit values produced by the printf conversion `%03d`: the decimal
digits of `i`, left padded with zeros to a minimum width of three.  For
`i < 1000` this is exactly three digits; beyond that the field widens. -/
def pad3 (i : Nat) : List Nat :=
  if i < 1000 then [i / 100, i / 10 % 10, i % 10]
  else decimalDigits i

/-- Code points of the string `segment_` (the stem prefix of the ffmpeg
output pattern `segment_%03d.mp4`). -/
def segStem : List Nat := [115, 101, 103, 109, 101, 110, 116, 95]

/-- Code points of the extension `.mp4`. -/
def mp4Ext : List Nat := [46, 109, 112, 52]

/-- File name, as code points, of the segment with index `i`, exactly as
ffmpeg instantiates the pattern `segment_%03d.mp4` (digit `d` has code
point `d + 48`). -/
def segNameCodes (i : Nat) : List Nat :=
  segStem ++ (pad3 i).map (fun d => d + 48) ++ mp4Ext

/-- Model of line 47 of `process_video_segments.py`:
`segments = sorted(output_dir.glob("segment_*.mp4"))`.  The glob result
`listing` arrives in unspecified filesystem order; `sorted` arranges it by
the lexicographic order `nameLe`.  `List.insertionSort` is a sorting
algorithm producing the same (unique, as `nameLe` is antisymmetric) sorted
permutation as Python `sorted`. -/
def split_video_order (listing : List (List Nat)) : List (List Nat) :=
  List.insertionSort nameLe listing

theorem pad3_lt {i j : Nat} (hij : i < j) (hj : j < 1000) :
    lexLtB (pad3 i) (pad3 j) = true := by
  have hi : i < 1000 := Nat.lt_trans hij hj
  simp only [pad3, if_pos hi, if_pos hj, lexLtB]
  split_ifs <;> first | rfl | omega

theorem pad3_length {i : Nat} (hi : i < 1000) : (pad3 i).length = 3 := by
  simp [pad3, if_pos hi]

theorem segNameCodes_lt {i j : Nat} (hij : i < j) (hj : j < 1000) :
    lexLtB (segNameCodes i) (segNameCodes j) = true := by
  have hi : i < 1000 := Nat.lt_trans hij hj
  simp only [segNameCodes, List.append_assoc]
  rw [lexLtB_append_left]
  exact lexLtB_append_of_length_eq _ _
    (by simp [pad3_length hi, pad3_length hj])
    (by rw [lexLtB_map_add48]; exact pad3_lt hij hj)

theorem sorted_segNames {n : Nat} (hn : n ≤ 1000) :
    List.Sorted nameLe ((List.range n).map segNameCodes) := by
  rw [List.Sorted, List.pairwise_map]
  refine (List.pairwise_lt_range n).imp_of_mem ?_
  intro i j hi hj hij
  exact Or.inl (segNameCodes_lt hij (lt_of_lt_of_le (List.mem_range.mp hj) hn))

/-- Code points of the fixed result file name `inpaint_out.mp4` that
`process_segment` expects inside the per-segment output directory. -/
def inpaintOutCodes : List Nat :=
  [105, 110, 112, 97, 105, 110, 116, 95, 111, 117, 116, 46, 109, 112, 52]

/-- Model of `Path.stem` for a file name given as code points: everything
before the last dot (code point 46); a name without a dot is its own stem.
`process_segment` derives the per-segment output directory from this. -/
def stemCodes (nm : List Nat) : List Nat :=
  if nm.contains 46 then
    ((nm.reverse.dropWhile (fun c => !(c == 46))).drop 1).reverse
  else nm

/-- Path, as code points, of the processed result for segment file `nm`:
`results_dir / stem(nm) / inpaint_out.mp4` (code point 47 is the path
separator), as returned by `process_segment` (lines 52 to 76 of
`process_video_segments.py`). -/
def processedPathCodes (resultsDir : List Nat) (nm : List Nat) : List Nat :=
  resultsDir ++ [47] ++ stemCodes nm ++ [47] ++ inpaintOutCodes

/-- Manifest line that `merge_videos` writes for one video path `v`: the
word `file`, a space (code 32), and the path wrapped in single quotes
(code 39).  The path is already absolute in the pipeline, so the
`absolute()` call of the source is the identity here. -/
def fileLineCodes (v : List Nat) : List Nat :=
  [102, 105, 108, 101, 32, 39] ++ v ++ [39]

/-- Observable effects of one call to `merge_videos` (lines 79 to 99 of
`process_video_segments.py`): the ordered lines written into the
concatenation manifest `video_list.txt`, and whether the concatenation
primitive (`ffmpeg -f concat`) was invoked on that manifest. -/
structure MergeRun where
  manifest : List (List Nat)
  concatInvoked : Bool
  deriving DecidableEq

/-- Model of `merge_videos`: writes one `file ...` line per input video, in
the order of `videoList`, then unconditionally invokes the concatenation
primitive on the manifest.  The source contains no emptiness check and no
exception raise of its own. -/
def merge_videos (videoList : List (List Nat)) : MergeRun :=
  { manifest := videoList.map fileLineCodes
    concatInvoked := true }

/-- C1: For every run reaching the merge step, the concatenation manifest
order equals the order of the list returned by `split_video`, and that
list is the segment files sorted by numeric suffix ascending — provided
the run has at most 1000 segments, so that every zero padded name has
exactly three digits.  (The unrestricted claim fails at 1001 segments, see
the counterexample.)  `listing` is the glob result, an arbitrary
permutation of the segment names of indices `0 .. n-1`. -/
theorem C1_manifest_order (n : Nat) (resultsDir : List Nat)
    (listing : List (List Nat)) (hn : n ≤ 1000)
    (hperm : listing.Perm ((List.range n).map segNameCodes)) :
    split_video_order listing = (List.range n).map segNameCodes ∧
    (merge_videos ((split_video_order listing).map
        (processedPathCodes resultsDir))).manifest
      = (List.range n).map
          (fun i => fileLineCodes (processedPathCodes resultsDir (segNameCodes i))) := by
  have hsplit : split_video_order listing = (List.range n).map segNameCodes :=
    List.eq_of_perm_of_sorted ((List.perm_insertionSort nameLe listing).trans hperm)
      (List.sorted_insertionSort nameLe listing) (sorted_segNames hn)
  refine ⟨hsplit, ?_⟩
  rw [hsplit]
  simp [merge_videos, List.map_map, Function.comp]

/-- Witness for C1 at a concrete run: two segments globbed in reversed
filesystem order. -/
theorem C1_manifest_order_w :
    (2 ≤ 1000) ∧
    ([segNameCodes 1, segNameCodes 0]).Perm ((List.range 2).map segNameCodes) ∧
    (split_video_order [segNameCodes 1, segNameCodes 0]
        = (List.range 2).map segNameCodes ∧
      (merge_videos ((split_video_order [segNameCodes 1, segNameCodes 0]).map
          (processedPathCodes [114]))).manifest
        = (List.range 2).map
            (fun i => fileLineCodes (processedPathCodes [114] (segNameCodes i)))) :=
  ⟨by decide, by decide,
    C1_manifest_order 2 [114] [segNameCodes 1, segNameCodes 0] (by decide) (by decide)⟩

/-- Counterexample to C1 as stated (for any number of segments): with 1001
segments, the lexicographic sort of `split_video` does not list the files
by numeric suffix ascending — `segment_1000.mp4` sorts before
`segment_999.mp4`. -/
theorem C1_counterexample :
    split_video_order ((List.range 1001).map segNameCodes)
      ≠ (List.range 1001).map segNameCodes := by
  intro h
  have hs : List.Sorted nameLe (split_video_order ((List.range 1001).map segNameCodes)) :=
    List.sorted_insertionSort nameLe _
  rw [h] at hs
  have hdec : (List.range 1001).map segNameCodes
      = (List.range 999).map segNameCodes ++ [segNameCodes 999, segNameCodes 1000] := by
    rw [show (1001 : Nat) = 999 + 1 + 1 from rfl, List.range_succ, List.range_succ]
    simp
  rw [hdec] at hs
  have hpair : List.Pairwise nameLe [segNameCodes 999, segNameCodes 1000] :=
    List.Pairwise.sublist (List.sublist_append_right _ _) hs
  have hle : nameLe (segNameCodes 999) (segNameCodes 1000) :=
    (List.pairwise_cons.mp hpair).1 _ (by simp)
  revert hle
  decide

/-- Outcome of one `process_segment` call: the external inpainting process
exits zero and the artifact `inpaint_out.mp4` exists (`ok`), the process
exits non-zero so `subprocess.run(check=True)` raises
`CalledProcessError` (`exitNonzero`), or the process exits zero but the
artifact is missing so line 74 raises `FileNotFoundError`
(`missingOutput`). -/
inductive SegOutcome
  | ok
  | exitNonzero
  | missingOutput
  deriving DecidableEq

/-- Exception escaping the per-segment loop for a given outcome. -/
inductive RunError
  | calledProcessError
  | fileNotFoundError
  deriving DecidableEq

/-- Error raised by `process_segment` for one outcome, if any. -/
def errOf : SegOutcome → Option RunError
  | .ok => none
  | .exitNonzero => some .calledProcessError
  | .missingOutput => some .fileNotFoundError

/-- Model of the per-segment loop of `main` (lines 158 to 167): segments
are visited in list order starting at position `s`; a raised exception
stops the loop at once.  Returns the positions attempted, in order, and
the escaping exception if any. -/
def processLoop : Nat → List SegOutcome → List Nat × Option RunError
  | _, [] => ([], none)
  | i, o :: rest =>
    match o with
    | .ok => (i :: (processLoop (i + 1) rest).1, (processLoop (i + 1) rest).2)
    | .exitNonzero => ([i], some .calledProcessError)
    | .missingOutput => ([i], some .fileNotFoundError)

/-- Observable result of one coordinator run (`main`, lines 102 to 199). -/
structure RunResult where
  attempted : List Nat
  mergeInvoked : Bool
  cleanupRan : Bool
  failureReported : Bool
  deriving DecidableEq

/-- Model of `main` after a successful split, given the per-segment
outcomes in segment order and whether the merge invocation itself
succeeds.  The merge step (line 176) runs only when the loop raised
nothing; the `finally` block (lines 193 to 199) removes the workspace
exactly when `keep_segments` was not requested, on every exit path; the
run reports failure (non-zero process exit, by `return 1` for the caught
`CalledProcessError` or by the uncaught `FileNotFoundError`) whenever the
loop or the merge raised. -/
def mainRun (keepSegments : Bool) (outcomes : List SegOutcome)
    (mergeOk : Bool) : RunResult :=
  { attempted := (processLoop 0 outcomes).1
    mergeInvoked := (processLoop 0 outcomes).2.isNone
    cleanupRan := !keepSegments
    failureReported := (processLoop 0 outcomes).2.isSome
      || ((processLoop 0 outcomes).2.isNone && !mergeOk) }

theorem range_map_shift (s k : Nat) :
    (List.range (k + 1)).map (fun i => s + i)
      = s :: (List.range k).map (fun i => (s + 1) + i) := by
  rw [List.range_succ_eq_map, List.map_cons, List.map_map]
  refine List.cons_eq_cons.mpr ⟨Nat.add_zero s, List.map_congr_left ?_⟩
  intro a _
  simp only [Function.comp_apply]
  omega

theorem processLoop_firstFail :
    ∀ (k s : Nat) (outcomes : List SegOutcome),
      k < outcomes.length →
      outcomes.take k = List.replicate k SegOutcome.ok →
      outcomes.getD k SegOutcome.ok ≠ SegOutcome.ok →
      processLoop s outcomes
        = ((List.range (k + 1)).map (fun i => s + i),
            errOf (outcomes.getD k SegOutcome.ok))
  | 0, s, [], hk, _, _ => absurd hk (by simp)
  | 0, s, o :: rest, _, _, hfail => by
    cases o with
    | ok => exact absurd rfl hfail
    | exitNonzero => rfl
    | missingOutput => rfl
  | k + 1, s, [], hk, _, _ => absurd hk (by simp)
  | k + 1, s, o :: rest, hk, hpre, hfail => by
    rw [List.take_succ_cons, List.replicate_succ, List.cons_eq_cons] at hpre
    obtain ⟨ho, hpre2⟩ := hpre
    subst ho
    have hk2 : k < rest.length := by simpa using hk
    have hfail2 : rest.getD k SegOutcome.ok ≠ SegOutcome.ok := by
      simpa using hfail
    have ih := processLoop_firstFail k (s + 1) rest hk2 hpre2 hfail2
    show (s :: (processLoop (s + 1) rest).1, (processLoop (s + 1) rest).2)
        = ((List.range (k + 1 + 1)).map (fun i => s + i),
            errOf ((SegOutcome.ok :: rest).getD (k + 1) SegOutcome.ok))
    rw [ih, List.getD_cons_succ, range_map_shift s (k + 1)]

/-- C2: if every segment before position `k` processes successfully and
segment `k` fails (non-zero exit of the inpainting call, or its output
artifact missing), then exactly the segments `0 .. k` are attempted — so
no segment after `k` is processed and segment `k` is not retried — the
merge step is never invoked, the run reports failure, and the workspace
is still removed whenever retention was not requested. -/
theorem C2_failFast (keep mergeOk : Bool) (outcomes : List SegOutcome) (k : Nat)
    (hk : k < outcomes.length)
    (hpre : outcomes.take k = List.replicate k SegOutcome.ok)
    (hfail : outcomes.getD k SegOutcome.ok ≠ SegOutcome.ok) :
    (mainRun keep outcomes mergeOk).attempted = List.range (k + 1) ∧
    (mainRun keep outcomes mergeOk).mergeInvoked = false ∧
    (mainRun keep outcomes mergeOk).failureReported = true ∧
    (keep = false → (mainRun keep outcomes mergeOk).cleanupRan = true) := by
  have h := processLoop_firstFail k 0 outcomes hk hpre hfail
  obtain ⟨er, herr⟩ : ∃ er, errOf (outcomes.getD k SegOutcome.ok) = some er := by
    cases ho : outcomes.getD k SegOutcome.ok with
    | ok => exact absurd ho hfail
    | exitNonzero => exact ⟨_, rfl⟩
    | missingOutput => exact ⟨_, rfl⟩
  rw [herr] at h
  constructor
  · show (processLoop 0 outcomes).1 = List.range (k + 1)
    rw [h]
    exact (List.map_congr_left fun a _ => Nat.zero_add a).trans (List.map_id _)
  refine ⟨?_, ?_, ?_⟩
  · show (processLoop 0 outcomes).2.isNone = false
    rw [h]
    rfl
  · show ((processLoop 0 outcomes).2.isSome
        || ((processLoop 0 outcomes).2.isNone && !mergeOk)) = true
    rw [h]
    rfl
  · intro hkeep
    show (!keep) = true
    rw [hkeep]
    rfl

/-- Witness for C2 at a concrete run: three segments, the second exits
non-zero. -/
theorem C2_failFast_w :
    (mainRun false [SegOutcome.ok, SegOutcome.exitNonzero, SegOutcome.ok]
        true).attempted = List.range 2 ∧
    (mainRun false [SegOutcome.ok, SegOutcome.exitNonzero, SegOutcome.ok]
        true).mergeInvoked = false ∧
    (mainRun false [SegOutcome.ok, SegOutcome.exitNonzero, SegOutcome.ok]
        true).failureReported = true ∧
    (false = false →
      (mainRun false [SegOutcome.ok, SegOutcome.exitNonzero, SegOutcome.ok]
        true).cleanupRan = true) :=
  C2_failFast false true [SegOutcome.ok, SegOutcome.exitNonzero, SegOutcome.ok] 1
    (by decide) (by decide) (by decide)

/-- Counterexample to C3 as stated: when `split_video` produces zero
segments it returns the empty list without raising anything, and the
coordinator still reaches the merge step — merging over the empty
segment sequence is attempted, contradicting the claimed abort with
`EmptyResultError` (no such error exists in the program). -/
theorem C3_counterexample :
    split_video_order [] = [] ∧ (mainRun false [] true).mergeInvoked = true :=
  ⟨rfl, rfl⟩

/-- C3 amended: with zero segments the run attempts no per-segment
processing, but it does invoke `merge_videos` on the empty list, which
writes an empty manifest and still invokes the concatenation primitive;
no dedicated empty-result error is raised before that point. -/
theorem C3_empty_split (keep mergeOk : Bool) :
    (mainRun keep [] mergeOk).attempted = [] ∧
    (mainRun keep [] mergeOk).mergeInvoked = true ∧
    (merge_videos []).manifest = [] ∧
    (merge_videos []).concatInvoked = true :=
  ⟨rfl, rfl, rfl, rfl⟩

/-- Counterexample to C4 as stated: `merge_videos` called with an empty
list does not fail — it writes an empty manifest and invokes the
concatenation primitive on it. -/
theorem C4_counterexample :
    (merge_videos []).concatInvoked = true ∧ (merge_videos []).manifest = [] :=
  ⟨rfl, rfl⟩

/-- C4 amended: `merge_videos` performs no input validation: for every
input list, also the empty one, it writes one manifest line per video in
order and unconditionally invokes the concatenation primitive; no
`EmptyInputError` is raised (no such error exists in the program). -/
theorem C4_no_empty_check (videoList : List (List Nat)) :
    (merge_videos videoList).manifest = videoList.map fileLineCodes ∧
    (merge_videos videoList).manifest.length = videoList.length ∧
    (merge_videos videoList).concatInvoked = true :=
  ⟨rfl, by simp [merge_videos], rfl⟩

end PVS
